import Mathlib

set_option maxHeartbeats 1000000

namespace FOTorch

/-! Shallow embedding of fiftyone/utils/torch.py: the output processors
(classifier, detector, instance segmenter, keypoint detector, semantic
segmenter), the MinResize preprocessing transform, and the configuration
checks performed by TorchModel at construction time.

Python floats are modelled exactly: by the rationals wherever only field
operations occur, and by the reals for the classifier (which applies the
exponential in its softmax).  Python exceptions are modelled by
Except String.  Numpy array operations that the source applies
(argmax, max, squeeze, slicing) are modelled by executable list functions
with the same semantics on the rectangular inputs the source feeds them. -/

/-- Python list indexing semantics, as used by the expression
class_labels[i] in every output processor: a nonnegative index counts from
the front, a negative index counts from the back, and an index outside
[-len, len) raises IndexError (modelled as none). -/
def pyIndex {α : Type} (xs : List α) (i : ℤ) : Option α :=
  let n : ℤ := xs.length
  let j : ℤ := if i < 0 then n + i else i
  if 0 ≤ j ∧ j < n then xs.get? j.toNat else none

/-- Python round applied to a float: round half to even (banker rounding),
returning an integer.  Used by MinResize and by the instance segmenter
when cropping masks. -/
def pyRound (q : ℚ) : ℤ :=
  let f : ℤ := ⌊q⌋
  let r : ℚ := q - f
  if r < 1/2 then f
  else if 1/2 < r then f + 1
  else if 2 ∣ f then f else f + 1

/-- Python and numpy slice semantics xs[a:b] with integer endpoints:
negative endpoints count from the back, then both are clamped to
[0, len], and the elements from the resolved start (inclusive) to the
resolved stop (exclusive) are returned. -/
def pySlice {α : Type} (xs : List α) (a b : ℤ) : List α :=
  let n : ℤ := xs.length
  let a2 : ℤ := if a < 0 then max 0 (n + a) else min a n
  let b2 : ℤ := if b < 0 then max 0 (n + b) else min b n
  (xs.drop a2.toNat).take (b2 - a2).toNat

/-- The confidence filter shared by the detection-family processors:
a candidate is kept unless a threshold is configured and the score is
strictly below it (the source skips when score < thresh). -/
def keepScore (t : Option ℚ) (score : ℚ) : Bool :=
  match t with
  | none => true
  | some th => decide (th ≤ score)

/-- Sequential effectful map over a list, as performed by a Python list
comprehension or loop whose body may raise: the first raise aborts the
whole traversal. -/
def mapExcept {α β : Type} (f : α → Except String β) : List α → Except String (List β)
  | [] => .ok []
  | x :: rest =>
    match f x with
    | .error e => .error e
    | .ok y =>
      match mapExcept f rest with
      | .error e => .error e
      | .ok ys => .ok (y :: ys)

/-- Numpy argmax over a one-dimensional array: the index of the first
occurrence of the maximum value (0 on the empty list, on which numpy
raises instead; every use below is guarded by nonemptiness). -/
def npArgmax {α : Type} [LinearOrder α] : List α → ℕ
  | [] => 0
  | x :: rest =>
    let j := npArgmax rest
    if x < rest.getD j x then j + 1 else 0

/-- Numpy max over a one-dimensional array: the maximum value (the given
default on the empty list, on which numpy raises instead). -/
def npMaxD {α : Type} [LinearOrder α] (xs : List α) (d : α) : α :=
  match xs with
  | [] => d
  | x :: rest => rest.foldl max x

/-- The box normalization performed inline by every detection-family
processor (spec name normalize_box): absolute corner coordinates to
normalized (x, y, w, h) relative to the frame size. -/
def normalize_box (x1 y1 x2 y2 width height : ℚ) : List ℚ :=
  [x1 / width, y1 / height, (x2 - x1) / width, (y2 - y1) / height]

/-- fiftyone.core.labels.Classification as produced by the classifier
processor (real-valued confidence, since the classifier computes a
softmax). -/
structure Classification where
  label : String
  confidence : ℝ

/-- fiftyone.core.labels.Detection as produced by the detection-family
processors. -/
structure Detection where
  label : String
  bounding_box : List ℚ
  confidence : ℚ
  mask : Option (List (List Bool))
deriving DecidableEq

/-- fiftyone.core.labels.Keypoint as produced by the keypoint detector
processor. -/
structure Keypoint where
  label : String
  points : List (ℚ × ℚ)
  confidence : ℚ
deriving DecidableEq

/-- fiftyone.core.labels.Polyline as produced by the keypoint detector
processor when an edge list is configured. -/
structure Polyline where
  points : List (List (ℚ × ℚ))
  confidence : ℚ
  closed : Bool
  filled : Bool
deriving DecidableEq

/-- fiftyone.core.labels.Segmentation as produced by the semantic
segmenter processor. -/
structure Segmentation where
  mask : List (List ℕ)
deriving DecidableEq

/-! ### ClassifierOutputProcessor -/

/-- One row of odds in ClassifierOutputProcessor.call: odds = np.exp(logits)
followed by odds /= np.sum(odds, axis=1, keepdims=True), i.e. the softmax
exp(logit) / sum(exp(logit)) over the row. -/
noncomputable def softmaxRow (row : List ℝ) : List ℝ :=
  let s := (row.map Real.exp).sum
  row.map fun v => Real.exp v / s

/-- The confidence filter of the classifier over the reals: a row is kept
unless a threshold is configured and the score is strictly below it. -/
noncomputable def keepScoreR (t : Option ℝ) (score : ℝ) : Bool :=
  match t with
  | none => true
  | some th => decide (th ≤ score)

/-- ClassifierOutputProcessor.call: per row of the [N, M] logits matrix,
prediction = np.argmax of the raw logits, score = np.max of the softmax
of the row; below-threshold rows yield None, kept rows index
class_labels with the prediction (raising IndexError when out of
range). -/
noncomputable def classifierCall (labels : List String) (t : Option ℝ)
    (logits : List (List ℝ)) : Except String (List (Option Classification)) :=
  mapExcept (fun row =>
    let p := npArgmax row
    let score := npMaxD (softmaxRow row) 0
    if keepScoreR t score then
      match pyIndex labels (p : ℤ) with
      | none => .error "IndexError: list index out of range"
      | some name => .ok (some { label := name, confidence := score })
    else .ok none) logits

/-- The per-row result described by the claim for the classifier: label =
class_labels at the argmax of the raw logits, confidence = the softmax
probability of that predicted class, None when a configured threshold
exceeds it. -/
noncomputable def claimClassification (labels : List String) (t : Option ℝ)
    (row : List ℝ) : Option Classification :=
  let p := npArgmax row
  let conf := (softmaxRow row).getD p 0
  match t with
  | some th =>
    if conf < th then none
    else some { label := labels.getD p "", confidence := conf }
  | none => some { label := labels.getD p "", confidence := conf }

/-! ### DetectorOutputProcessor -/

/-- The per-image output fed to DetectorOutputProcessor.parse_detections:
parallel arrays of boxes (x1, y1, x2, y2) in absolute pixel coordinates,
integer class labels, and confidence scores. -/
structure DetImageOutput where
  boxes : List (ℚ × ℚ × ℚ × ℚ)
  labels : List ℤ
  scores : List ℚ
deriving DecidableEq

/-- The zip performed by the detector loop (Python zip truncates to the
shortest input). -/
def detZip (o : DetImageOutput) : List ((ℚ × ℚ × ℚ × ℚ) × ℤ × ℚ) :=
  o.boxes.zip (o.labels.zip o.scores)

/-- The loop body of DetectorOutputProcessor.parse_detections: skip
below-threshold candidates, index class_labels (IndexError aborts),
normalize the box, and append a Detection. -/
def detectorLoop (labels : List String) (t : Option ℚ) (w h : ℚ) :
    List ((ℚ × ℚ × ℚ × ℚ) × ℤ × ℚ) → Except String (List Detection)
  | [] => .ok []
  | c :: rest =>
    if keepScore t c.2.2 then
      match pyIndex labels c.2.1 with
      | none => .error "IndexError: list index out of range"
      | some name =>
        match detectorLoop labels t w h rest with
        | .error e => .error e
        | .ok ds =>
          .ok ({ label := name,
                 bounding_box := normalize_box c.1.1 c.1.2.1 c.1.2.2.1 c.1.2.2.2 w h,
                 confidence := c.2.2,
                 mask := none } :: ds)
    else detectorLoop labels t w h rest

/-- DetectorOutputProcessor.parse_detections on one image. -/
def detectorParse (labels : List String) (t : Option ℚ) (o : DetImageOutput)
    (frame : ℚ × ℚ) : Except String (List Detection) :=
  detectorLoop labels t frame.1 frame.2 (detZip o)

/-- DetectorOutputProcessor.call over a batch. -/
def detectorCall (labels : List String) (t : Option ℚ) (output : List DetImageOutput)
    (frame : ℚ × ℚ) : Except String (List (List Detection)) :=
  mapExcept (fun o => detectorParse labels t o frame) output

/-- The Detection emitted for one kept detector candidate, used to state
the filter-and-map characterization of the detector loop. -/
def emitDetection (labels : List String) (w h : ℚ)
    (c : (ℚ × ℚ × ℚ × ℚ) × ℤ × ℚ) : Detection :=
  { label := (pyIndex labels c.2.1).getD "",
    bounding_box := normalize_box c.1.1 c.1.2.1 c.1.2.2.1 c.1.2.2.2 w h,
    confidence := c.2.2,
    mask := none }

/-! ### InstanceSegmenterOutputProcessor -/

/-- The default mask_thresh of InstanceSegmenterOutputProcessor. -/
def defaultMaskThresh : ℚ := 1/2

/-- The per-image output fed to
InstanceSegmenterOutputProcessor.parse_detections: boxes, labels, scores
as for the detector, plus one soft mask of shape [1, H, W] with values in
[0, 1] per candidate. -/
structure InstImageOutput where
  boxes : List (ℚ × ℚ × ℚ × ℚ)
  labels : List ℤ
  scores : List ℚ
  masks : List (List (List (List ℚ)))
deriving DecidableEq

/-- The zip performed by the instance segmenter loop. -/
def instZip (o : InstImageOutput) :
    List ((ℚ × ℚ × ℚ × ℚ) × ℤ × ℚ × List (List (List ℚ))) :=
  o.boxes.zip (o.labels.zip (o.scores.zip o.masks))

/-- np.squeeze(mask, axis=0) on a [1, H, W] array: drop the singleton
channel axis (numpy raises when the first axis is not 1; every claim
below feeds a [1, H, W] array). -/
def npSqueeze0 (m : List (List (List ℚ))) : List (List ℚ) :=
  m.headD []

/-- The crop performed by the instance segmenter:
soft_mask[int(round(y1)):int(round(y2)), int(round(x1)):int(round(x2))]. -/
def cropSoftMask (soft : List (List ℚ)) (x1 y1 x2 y2 : ℚ) : List (List ℚ) :=
  (pySlice soft (pyRound y1) (pyRound y2)).map fun row =>
    pySlice row (pyRound x1) (pyRound x2)

/-- The binarization performed by the instance segmenter:
mask = soft_mask > mask_thresh, elementwise strict comparison. -/
def binarizeMask (mt : ℚ) (m : List (List ℚ)) : List (List Bool) :=
  m.map (List.map fun v => decide (mt < v))

/-- The loop body of InstanceSegmenterOutputProcessor.parse_detections:
as for the detector, plus squeeze, crop and binarize the soft mask and
attach it to the Detection. -/
def instLoop (labels : List String) (t : Option ℚ) (mt : ℚ) (w h : ℚ) :
    List ((ℚ × ℚ × ℚ × ℚ) × ℤ × ℚ × List (List (List ℚ))) →
    Except String (List Detection)
  | [] => .ok []
  | c :: rest =>
    if keepScore t c.2.2.1 then
      match pyIndex labels c.2.1 with
      | none => .error "IndexError: list index out of range"
      | some name =>
        match instLoop labels t mt w h rest with
        | .error e => .error e
        | .ok ds =>
          .ok ({ label := name,
                 bounding_box := normalize_box c.1.1 c.1.2.1 c.1.2.2.1 c.1.2.2.2 w h,
                 confidence := c.2.2.1,
                 mask := some (binarizeMask mt
                   (cropSoftMask (npSqueeze0 c.2.2.2) c.1.1 c.1.2.1 c.1.2.2.1 c.1.2.2.2)) } :: ds)
    else instLoop labels t mt w h rest

/-- InstanceSegmenterOutputProcessor.parse_detections on one image. -/
def instanceParse (labels : List String) (t : Option ℚ) (mt : ℚ)
    (o : InstImageOutput) (frame : ℚ × ℚ) : Except String (List Detection) :=
  instLoop labels t mt frame.1 frame.2 (instZip o)

/-- The Detection emitted for one kept instance segmenter candidate, used
to state the filter-and-map characterization of the instance loop. -/
def emitInstDetection (labels : List String) (mt : ℚ) (w h : ℚ)
    (c : (ℚ × ℚ × ℚ × ℚ) × ℤ × ℚ × List (List (List ℚ))) : Detection :=
  { label := (pyIndex labels c.2.1).getD "",
    bounding_box := normalize_box c.1.1 c.1.2.1 c.1.2.2.1 c.1.2.2.2 w h,
    confidence := c.2.2.1,
    mask := some (binarizeMask mt
      (cropSoftMask (npSqueeze0 c.2.2.2) c.1.1 c.1.2.1 c.1.2.2.1 c.1.2.2.2)) }

/-! ### KeypointDetectorOutputProcessor -/

/-- The per-image output fed to
KeypointDetectorOutputProcessor.parse_detections: boxes, labels, scores as
for the detector, plus per candidate a list of keypoints, each a list of
at least two coordinates [x, y, ...] in absolute pixels. -/
structure KPImageOutput where
  boxes : List (ℚ × ℚ × ℚ × ℚ)
  labels : List ℤ
  scores : List ℚ
  keypoints : List (List (List ℚ))
deriving DecidableEq

/-- The zip performed by the keypoint detector loop. -/
def kpZip (o : KPImageOutput) :
    List ((ℚ × ℚ × ℚ × ℚ) × ℤ × ℚ × List (List ℚ)) :=
  o.boxes.zip (o.labels.zip (o.scores.zip o.keypoints))

/-- Normalized keypoints of one candidate:
points = [(p[0] / width, p[1] / height) for p in kpts].  Coordinates
beyond the first two are dropped by the source. -/
def kpPoints (w h : ℚ) (kpts : List (List ℚ)) : List (ℚ × ℚ) :=
  kpts.map fun p => (p.getD 0 0 / w, p.getD 1 0 / h)

/-- The composite label dict built by
KeypointDetectorOutputProcessor.parse_detections for one image: keys
detections and keypoints always, polylines exactly when an edge list is
configured. -/
structure KPLabelDict where
  detections : List Detection
  keypoints : List Keypoint
  polylines : Option (List Polyline)
deriving DecidableEq

/-- The Polyline emitted for one kept keypoint candidate when an edge
list is configured: points = [[points[v] for v in e] for e in edges]. -/
def emitPolyline (es : List (List ℕ)) (points : List (ℚ × ℚ)) (score : ℚ) : Polyline :=
  { points := es.map fun e => e.map fun v => points.getD v (0, 0),
    confidence := score,
    closed := false,
    filled := false }

/-- The loop body of KeypointDetectorOutputProcessor.parse_detections:
per kept candidate append one Detection, one Keypoint, and, when an edge
list is configured, one Polyline, into three per-image accumulators. -/
def kpLoop (labels : List String) (edges : Option (List (List ℕ)))
    (t : Option ℚ) (w h : ℚ) :
    List ((ℚ × ℚ × ℚ × ℚ) × ℤ × ℚ × List (List ℚ)) →
    Except String (List Detection × List Keypoint × List Polyline)
  | [] => .ok ([], [], [])
  | c :: rest =>
    if keepScore t c.2.2.1 then
      match pyIndex labels c.2.1 with
      | none => .error "IndexError: list index out of range"
      | some name =>
        match kpLoop labels edges t w h rest with
        | .error e => .error e
        | .ok (ds, ks, ps) =>
          let points := kpPoints w h c.2.2.2
          .ok ({ label := name,
                 bounding_box := normalize_box c.1.1 c.1.2.1 c.1.2.2.1 c.1.2.2.2 w h,
                 confidence := c.2.2.1,
                 mask := none } :: ds,
               { label := name, points := points, confidence := c.2.2.1 } :: ks,
               match edges with
               | some es => emitPolyline es points c.2.2.1 :: ps
               | none => ps)
    else kpLoop labels edges t w h rest

/-- KeypointDetectorOutputProcessor.parse_detections on one image: run the
loop over the zipped candidates and assemble the composite dict, with the
polylines key present exactly when an edge list is configured. -/
def keypointParse (labels : List String) (edges : Option (List (List ℕ)))
    (t : Option ℚ) (frame : ℚ × ℚ) (o : KPImageOutput) :
    Except String KPLabelDict :=
  match kpLoop labels edges t frame.1 frame.2 (kpZip o) with
  | .error e => .error e
  | .ok (ds, ks, ps) =>
    .ok { detections := ds,
          keypoints := ks,
          polylines := match edges with
            | some _ => some ps
            | none => none }

/-- KeypointDetectorOutputProcessor.call: one composite dict per image of
the batch. -/
def keypointCall (labels : List String) (edges : Option (List (List ℕ)))
    (t : Option ℚ) (frame : ℚ × ℚ) (output : List KPImageOutput) :
    Except String (List KPLabelDict) :=
  mapExcept (keypointParse labels edges t frame) output

/-- The Detection emitted for one kept keypoint candidate. -/
def emitKPDetection (labels : List String) (w h : ℚ)
    (c : (ℚ × ℚ × ℚ × ℚ) × ℤ × ℚ × List (List ℚ)) : Detection :=
  { label := (pyIndex labels c.2.1).getD "",
    bounding_box := normalize_box c.1.1 c.1.2.1 c.1.2.2.1 c.1.2.2.2 w h,
    confidence := c.2.2.1,
    mask := none }

/-- The Keypoint emitted for one kept keypoint candidate. -/
def emitKeypoint (labels : List String) (w h : ℚ)
    (c : (ℚ × ℚ × ℚ × ℚ) × ℤ × ℚ × List (List ℚ)) : Keypoint :=
  { label := (pyIndex labels c.2.1).getD "",
    points := kpPoints w h c.2.2.2,
    confidence := c.2.2.1 }

/-- The composite label dict per image as the amended claim describes it:
filter the candidates of that image by the confidence threshold, then map
them into three flat per-image containers, with the polylines container
present exactly when an edge list is configured. -/
def perImageComposite (labels : List String) (edges : Option (List (List ℕ)))
    (t : Option ℚ) (w h : ℚ) (o : KPImageOutput) : KPLabelDict :=
  let kept := (kpZip o).filter fun c => keepScore t c.2.2.1
  { detections := kept.map (emitKPDetection labels w h),
    keypoints := kept.map (emitKeypoint labels w h),
    polylines := edges.map fun es =>
      kept.map fun c => emitPolyline es (kpPoints w h c.2.2.2) c.2.2.1 }

/-! ### SegmenterOutputProcessor -/

/-- probs.argmax(axis=1) on one [M, H, W] image of the [N, M, H, W]
tensor: the [H, W] array of per-pixel first-maximum class indices. -/
def argmaxAxis1 (img : List (List (List ℚ))) : List (List ℕ) :=
  match img with
  | [] => []
  | ch0 :: _ =>
    (List.range ch0.length).map fun y =>
      (List.range ((ch0.getD y []).length)).map fun x =>
        npArgmax (img.map fun ch => (ch.getD y []).getD x 0)

/-- SegmenterOutputProcessor.call: masks = probs.argmax(axis=1), one
Segmentation per image, no thresholding and no confidence. -/
def segmenterCall (probs : List (List (List (List ℚ)))) : List Segmentation :=
  probs.map fun img => { mask := argmaxAxis1 img }

/-! ### MinResize -/

/-- An input image as MinResize sees it: only the two spatial dimensions
and an opaque pixel payload matter at this layer. -/
structure PILImage where
  height : ℕ
  width : ℕ
  pixels : ℕ
deriving DecidableEq

/-- Modelled from the spec: torchvision.transforms.functional.resize (an
external collaborator not in this repository) returns the resampled image
with exactly the requested (height, width); the pixel payload is carried
opaquely. -/
def F_resize (img : PILImage) (size : ℤ × ℤ) : PILImage :=
  { height := size.1.toNat, width := size.2.toNat, pixels := img.pixels }

/-- The isotropic scale factor computed by MinResize.call:
alpha = max(minh / h, minw / w). -/
def resizeAlpha (minh minw : ℕ) (img : PILImage) : ℚ :=
  max ((minh : ℚ) / (img.height : ℚ)) ((minw : ℚ) / (img.width : ℚ))

/-- MinResize.call: return the image unchanged when both dimensions meet
the minimums, otherwise resize to
(int(round(alpha * h)), int(round(alpha * w))). -/
def minResize (minh minw : ℕ) (img : PILImage) : PILImage :=
  if minh ≤ img.height ∧ minw ≤ img.width then img
  else
    F_resize img
      (pyRound (resizeAlpha minh minw img * img.height),
       pyRound (resizeAlpha minh minw img * img.width))

/-! ### TorchModel configuration checks -/

/-- The configuration fields of TorchModelConfig that the constructor-time
checks read.  None models a field that was not provided. -/
structure TorchModelConfig where
  labels_string : Option String
  labels_path : Option String
  image_min_size : Option (List ℕ)
  image_min_dim : Option ℕ
  image_size : Option (List ℕ)
  image_dim : Option ℕ
  image_mean : Option (List ℚ)
  image_std : Option (List ℚ)
deriving DecidableEq

/-- Python truthiness of an optional string: None and the empty string are
falsy. -/
def optStrTruthy : Option String → Bool
  | none => false
  | some s => !(s.isEmpty)

/-- Python truthiness of an optional array: None and the empty array are
falsy. -/
def optListTruthy {α : Type} : Option (List α) → Bool
  | none => false
  | some l => !(l.isEmpty)

/-- Python truthiness of an optional number: None and zero are falsy. -/
def optNatTruthy : Option ℕ → Bool
  | none => false
  | some n => n != 0

/-- TorchModel.get_class_labels: split labels_string when truthy, raise
when neither labels source is truthy, otherwise defer to the external
label-map loader (a collaborator outside this repository, passed in as a
function). -/
def getClassLabels (loadLabelsMap : String → List String)
    (c : TorchModelConfig) : Except String (List String) :=
  if optStrTruthy c.labels_string then
    .ok ((c.labels_string.getD "").splitOn ",")
  else if !(optStrTruthy c.labels_path) then
    .error "Either labels_string or labels_path must be specified"
  else .ok (loadLabelsMap (c.labels_path.getD ""))

/-- The preprocessing pipeline steps assembled by
TorchModel.build_transforms, as symbolic tags. -/
inductive TransformStep where
  | toPILImage : TransformStep
  | minResizeSize (s : List ℕ) : TransformStep
  | minResizeDim (d : ℕ) : TransformStep
  | resizeSize (s : List ℕ) : TransformStep
  | resizeDim (d : ℕ) : TransformStep
  | toTensor : TransformStep
  | normalizeStep (mean std : List ℚ) : TransformStep
deriving DecidableEq

/-- TorchModel.build_transforms: ToPILImage, then at most one resize step
chosen by first-match precedence, then ToTensor, then Normalize when mean
or std is truthy, raising unless both are. -/
def buildTransforms (c : TorchModelConfig) : Except String (List TransformStep) :=
  let sizeStep : List TransformStep :=
    if optListTruthy c.image_min_size then
      [TransformStep.minResizeSize (c.image_min_size.getD [])]
    else if optNatTruthy c.image_min_dim then
      [TransformStep.minResizeDim (c.image_min_dim.getD 0)]
    else if optListTruthy c.image_size then
      [TransformStep.resizeSize (c.image_size.getD [])]
    else if optNatTruthy c.image_dim then
      [TransformStep.resizeDim (c.image_dim.getD 0)]
    else []
  let base := [TransformStep.toPILImage] ++ sizeStep ++ [TransformStep.toTensor]
  if optListTruthy c.image_mean || optListTruthy c.image_std then
    if !(optListTruthy c.image_mean) || !(optListTruthy c.image_std) then
      .error "Both image_mean and image_std must be provided"
    else
      .ok (base ++ [TransformStep.normalizeStep (c.image_mean.getD []) (c.image_std.getD [])])
  else .ok base

/-- The state TorchModel.init establishes before loading the model. -/
structure TorchModelState where
  class_labels : List String
  num_classes : ℕ
  transforms : List TransformStep
deriving DecidableEq

/-- The prefix of TorchModel.init under the authority of this module:
resolve the class labels, then build the transforms; any raise aborts
construction before the model is loaded and before any inference. -/
def torchModelInit (loadLabelsMap : String → List String)
    (c : TorchModelConfig) : Except String TorchModelState :=
  match getClassLabels loadLabelsMap c with
  | .error e => .error e
  | .ok labels =>
    match buildTransforms c with
    | .error e => .error e
    | .ok ts => .ok { class_labels := labels, num_classes := labels.length, transforms := ts }

/-! ### Concrete inputs used by counterexamples and witnesses -/

/-- A one-candidate keypoint image output used by concrete batches. -/
def kpImgA : KPImageOutput :=
  { boxes := [(0, 0, 1, 1)], labels := [0], scores := [1],
    keypoints := [[[0, 0]]] }

/-- A second one-candidate keypoint image output, with a different box. -/
def kpImgB : KPImageOutput :=
  { boxes := [(0, 0, 2, 2)], labels := [0], scores := [1],
    keypoints := [[[1, 1]]] }

/-- A one-candidate instance segmenter image output whose [1, 2, 2] soft
mask is everywhere 3/5 = 0.6, with box (0, 0, 2, 2). -/
def instImg06 : InstImageOutput :=
  { boxes := [(0, 0, 2, 2)], labels := [0], scores := [1],
    masks := [[[[3/5, 3/5], [3/5, 3/5]]]] }

/-- A concrete [1, 2, 1, 1] segmentation scores tensor whose class-1
score exceeds its class-0 score at the single pixel. -/
def segProbsEx : List (List (List (List ℚ))) := [[[[0]], [[1]]]]

/-! ### Helper lemmas -/

theorem getD_map {α β : Type} (f : α → β) (l : List α) (i : ℕ) (d : α) :
    (l.map f).getD i (f d) = f (l.getD i d) := by
  induction l generalizing i with
  | nil => simp
  | cons x rest ih =>
    cases i with
    | zero => simp
    | succ j =>
      simp only [List.map_cons, List.getD_cons_succ]
      exact ih j

theorem getD_eq_of_lt {α : Type} (l : List α) (i : ℕ) (h : i < l.length) (d1 d2 : α) :
    l.getD i d1 = l.getD i d2 := by
  induction l generalizing i with
  | nil => simp at h
  | cons x rest ih =>
    cases i with
    | zero => simp
    | succ j =>
      simp only [List.getD_cons_succ]
      exact ih j (by simpa using h)

theorem getD_range_map {β : Type} (f : ℕ → β) (n i : ℕ) (h : i < n) (d : β) :
    ((List.range n).map f).getD i d = f i := by
  rw [List.getD_eq_getElem?_getD, List.getElem?_map, List.getElem?_range h]
  rfl

theorem getD_mem {α : Type} (l : List α) (i : ℕ) (h : i < l.length) (d : α) :
    l.getD i d ∈ l := by
  induction l generalizing i with
  | nil => simp at h
  | cons x rest ih =>
    cases i with
    | zero => simp
    | succ j =>
      simp only [List.getD_cons_succ]
      exact List.mem_cons_of_mem _ (ih j (by simpa using h))

theorem pyIndex_eq_none_iff {α : Type} (xs : List α) (i : ℤ) :
    pyIndex xs i = none ↔ (i < -(xs.length : ℤ) ∨ (xs.length : ℤ) ≤ i) := by
  simp only [pyIndex]
  split_ifs with h1 h2 h2
  · exact iff_of_false (fun hc => by rw [List.get?_eq_none] at hc; omega) (by omega)
  · exact iff_of_true rfl (by omega)
  · exact iff_of_false (fun hc => by rw [List.get?_eq_none] at hc; omega) (by omega)
  · exact iff_of_true rfl (by omega)

theorem pyIndex_neg_eq {α : Type} (xs : List α) (i : ℤ)
    (h1 : -(xs.length : ℤ) ≤ i) (h2 : i < 0) :
    pyIndex xs i = xs.get? ((xs.length : ℤ) + i).toNat := by
  simp only [pyIndex]
  rw [if_pos h2, if_pos (by constructor <;> omega)]

theorem pyIndex_nat_eq {α : Type} (xs : List α) (p : ℕ) (h : p < xs.length) (d : α) :
    pyIndex xs (p : ℤ) = some (xs.getD p d) := by
  simp only [pyIndex]
  rw [if_neg (show ¬((p : ℤ) < 0) by omega),
    if_pos (show (0 : ℤ) ≤ (p : ℤ) ∧ (p : ℤ) < (xs.length : ℤ) by constructor <;> omega)]
  have ht : ((p : ℤ)).toNat = p := by omega
  rw [ht, List.get?_eq_getElem?, List.getElem?_eq_getElem h,
    List.getD_eq_getElem?_getD, List.getElem?_eq_getElem h]
  rfl

theorem pyRound_ge {n : ℤ} {q : ℚ} (h : (n : ℚ) ≤ q) : n ≤ pyRound q := by
  have hf : n ≤ ⌊q⌋ := Int.le_floor.mpr h
  simp only [pyRound]
  split_ifs <;> omega

theorem npArgmax_lt_length {α : Type} [LinearOrder α] (xs : List α) (h : xs ≠ []) :
    npArgmax xs < xs.length := by
  induction xs with
  | nil => exact absurd rfl h
  | cons x rest ih =>
    simp only [npArgmax]
    split_ifs with hlt
    · have hne : rest ≠ [] := by
        intro he
        rw [he] at hlt
        simp at hlt
      have := ih hne
      simp only [List.length_cons]
      omega
    · simp

theorem le_getD_npArgmax {α : Type} [LinearOrder α] (xs : List α) (y : α) (hy : y ∈ xs) :
    ∀ d, y ≤ xs.getD (npArgmax xs) d := by
  induction xs with
  | nil => simp at hy
  | cons x rest ih =>
    intro d
    simp only [npArgmax]
    split_ifs with hlt
    · have hne : rest ≠ [] := by
        intro he
        rw [he] at hlt
        simp at hlt
      have hjlt : npArgmax rest < rest.length := npArgmax_lt_length rest hne
      rw [List.getD_cons_succ, getD_eq_of_lt rest _ hjlt d x]
      rcases List.mem_cons.mp hy with rfl | hy2
      · exact le_of_lt hlt
      · exact ih hy2 x
    · rw [List.getD_cons_zero]
      rcases List.mem_cons.mp hy with rfl | hy2
      · exact le_refl y
      · exact le_trans (ih hy2 x) (not_lt.mp hlt)

theorem getD_npArgmax_mem {α : Type} [LinearOrder α] (xs : List α) (h : xs ≠ []) :
    ∀ d, xs.getD (npArgmax xs) d ∈ xs := by
  induction xs with
  | nil => exact absurd rfl h
  | cons x rest ih =>
    intro d
    simp only [npArgmax]
    split_ifs with hlt
    · have hne : rest ≠ [] := by
        intro he
        rw [he] at hlt
        simp at hlt
      rw [List.getD_cons_succ]
      exact List.mem_cons_of_mem _ (ih hne d)
    · simp

theorem npArgmax_map {α β : Type} [LinearOrder α] [LinearOrder β] (f : α → β)
    (hf : StrictMono f) (xs : List α) : npArgmax (xs.map f) = npArgmax xs := by
  induction xs with
  | nil => rfl
  | cons x rest ih =>
    simp only [List.map_cons, npArgmax, ih]
    rw [getD_map f rest (npArgmax rest) x]
    by_cases hlt : x < rest.getD (npArgmax rest) x
    · rw [if_pos (hf hlt), if_pos hlt]
    · rw [if_neg (fun hc => hlt (hf.lt_iff_lt.mp hc)), if_neg hlt]

theorem foldl_max_mem {α : Type} [LinearOrder α] (rest : List α) :
    ∀ x, rest.foldl max x ∈ x :: rest := by
  induction rest with
  | nil => simp
  | cons r rest ih =>
    intro x
    have h := ih (max x r)
    simp only [List.foldl_cons]
    rcases List.mem_cons.mp h with he | hmem
    · rw [he]
      rcases max_choice x r with hc | hc
      · rw [hc]
        simp
      · rw [hc]
        simp
    · exact List.mem_cons_of_mem _ (List.mem_cons_of_mem _ hmem)

theorem le_foldl_max {α : Type} [LinearOrder α] (rest : List α) :
    ∀ x, ∀ y ∈ x :: rest, y ≤ rest.foldl max x := by
  induction rest with
  | nil =>
    intro x y hy
    rcases List.mem_cons.mp hy with rfl | h2
    · exact le_refl y
    · simp at h2
  | cons r rest ih =>
    intro x y hy
    simp only [List.foldl_cons]
    rcases List.mem_cons.mp hy with rfl | h2
    · exact le_trans (le_max_left y r) (ih (max y r) (max y r) (by simp))
    · rcases List.mem_cons.mp h2 with rfl | h3
      · exact le_trans (le_max_right x y) (ih (max x y) (max x y) (by simp))
      · exact ih (max x r) y (List.mem_cons_of_mem _ h3)

theorem npMaxD_eq_getD_npArgmax {α : Type} [LinearOrder α] (xs : List α) (h : xs ≠ []) (d : α) :
    npMaxD xs d = xs.getD (npArgmax xs) d := by
  cases xs with
  | nil => exact absurd rfl h
  | cons x rest =>
    apply le_antisymm
    · exact le_getD_npArgmax (x :: rest) _ (foldl_max_mem rest x) d
    · exact le_foldl_max rest x _ (getD_npArgmax_mem (x :: rest) (by simp) d)

theorem npArgmax_pair {α : Type} [LinearOrder α] (u v : α) (h : u < v) :
    npArgmax [u, v] = 1 := by
  simp [npArgmax, h]

theorem mapExcept_ok {α β : Type} (f : α → Except String β) (g : α → β) (l : List α)
    (h : ∀ x ∈ l, f x = .ok (g x)) : mapExcept f l = .ok (l.map g) := by
  induction l with
  | nil => rfl
  | cons x rest ih =>
    simp only [mapExcept, h x (by simp), ih (fun y hy => h y (List.mem_cons_of_mem _ hy)),
      List.map_cons]

theorem mapExcept_error_iff {α β : Type} (f : α → Except String β) (l : List α) :
    (∃ e, mapExcept f l = .error e) ↔ ∃ x ∈ l, ∃ e, f x = .error e := by
  induction l with
  | nil => simp [mapExcept]
  | cons x rest ih =>
    cases hfx : f x with
    | error e =>
      exact iff_of_true ⟨e, by simp [mapExcept, hfx]⟩ ⟨x, by simp, e, hfx⟩
    | ok y =>
      cases hrest : mapExcept f rest with
      | error e2 =>
        refine iff_of_true ⟨e2, by simp [mapExcept, hfx, hrest]⟩ ?_
        obtain ⟨z, hz, e, he⟩ := ih.mp ⟨e2, hrest⟩
        exact ⟨z, List.mem_cons_of_mem _ hz, e, he⟩
      | ok ys =>
        refine iff_of_false ?_ ?_
        · rintro ⟨e, he⟩
          simp [mapExcept, hfx, hrest] at he
        · rintro ⟨z, hz, e, he⟩
          rcases List.mem_cons.mp hz with rfl | hz2
          · rw [he] at hfx
            cases hfx
          · obtain ⟨e3, he3⟩ := ih.mpr ⟨z, hz2, e, he⟩
            rw [he3] at hrest
            cases hrest

theorem detectorLoop_eq_of_valid (labels : List String) (t : Option ℚ) (w h : ℚ)
    (cands : List ((ℚ × ℚ × ℚ × ℚ) × ℤ × ℚ))
    (hvalid : ∀ c ∈ cands, keepScore t c.2.2 = true → (pyIndex labels c.2.1).isSome) :
    detectorLoop labels t w h cands =
      .ok ((cands.filter fun c => keepScore t c.2.2).map (emitDetection labels w h)) := by
  induction cands with
  | nil => rfl
  | cons c rest ih =>
    have ihr := ih fun c2 h2 => hvalid c2 (List.mem_cons_of_mem _ h2)
    simp only [detectorLoop]
    by_cases hk : keepScore t c.2.2 = true
    · rw [if_pos hk]
      obtain ⟨name, hname⟩ := Option.isSome_iff_exists.mp (hvalid c (by simp) hk)
      rw [hname, ihr]
      simp [List.filter_cons, hk, emitDetection, hname]
    · rw [if_neg hk, ihr]
      simp [List.filter_cons, hk]

theorem detectorLoop_error_iff (labels : List String) (t : Option ℚ) (w h : ℚ)
    (cands : List ((ℚ × ℚ × ℚ × ℚ) × ℤ × ℚ)) :
    (∃ e, detectorLoop labels t w h cands = .error e) ↔
      ∃ c ∈ cands, keepScore t c.2.2 = true ∧ pyIndex labels c.2.1 = none := by
  induction cands with
  | nil => simp [detectorLoop]
  | cons c rest ih =>
    simp only [detectorLoop]
    by_cases hk : keepScore t c.2.2 = true
    · rw [if_pos hk]
      cases hpi : pyIndex labels c.2.1 with
      | none => exact iff_of_true ⟨_, rfl⟩ ⟨c, by simp, hk, hpi⟩
      | some name =>
        cases hrest : detectorLoop labels t w h rest with
        | error e =>
          refine iff_of_true ⟨e, rfl⟩ ?_
          obtain ⟨c2, h2, h3, h4⟩ := ih.mp ⟨e, hrest⟩
          exact ⟨c2, List.mem_cons_of_mem _ h2, h3, h4⟩
        | ok ds =>
          refine iff_of_false ?_ ?_
          · rintro ⟨e, he⟩
            cases he
          · rintro ⟨c2, hc2, hk2, hpi2⟩
            rcases List.mem_cons.mp hc2 with rfl | h2
            · rw [hpi2] at hpi
              cases hpi
            · obtain ⟨e3, he3⟩ := ih.mpr ⟨c2, h2, hk2, hpi2⟩
              rw [he3] at hrest
              cases hrest
    · rw [if_neg hk]
      refine ih.trans ?_
      constructor
      · rintro ⟨c2, h2, h3, h4⟩
        exact ⟨c2, List.mem_cons_of_mem _ h2, h3, h4⟩
      · rintro ⟨c2, hc2, hk2, hpi2⟩
        rcases List.mem_cons.mp hc2 with rfl | h2
        · exact absurd hk2 hk
        · exact ⟨c2, h2, hk2, hpi2⟩

theorem instLoop_eq_of_valid (labels : List String) (t : Option ℚ) (mt : ℚ) (w h : ℚ)
    (cands : List ((ℚ × ℚ × ℚ × ℚ) × ℤ × ℚ × List (List (List ℚ))))
    (hvalid : ∀ c ∈ cands, keepScore t c.2.2.1 = true → (pyIndex labels c.2.1).isSome) :
    instLoop labels t mt w h cands =
      .ok ((cands.filter fun c => keepScore t c.2.2.1).map (emitInstDetection labels mt w h)) := by
  induction cands with
  | nil => rfl
  | cons c rest ih =>
    have ihr := ih fun c2 h2 => hvalid c2 (List.mem_cons_of_mem _ h2)
    simp only [instLoop]
    by_cases hk : keepScore t c.2.2.1 = true
    · rw [if_pos hk]
      obtain ⟨name, hname⟩ := Option.isSome_iff_exists.mp (hvalid c (by simp) hk)
      rw [hname, ihr]
      simp [List.filter_cons, hk, emitInstDetection, hname]
    · rw [if_neg hk, ihr]
      simp [List.filter_cons, hk]

theorem kpLoop_eq_of_valid (labels : List String) (edges : Option (List (List ℕ)))
    (t : Option ℚ) (w h : ℚ) (cands : List ((ℚ × ℚ × ℚ × ℚ) × ℤ × ℚ × List (List ℚ)))
    (hvalid : ∀ c ∈ cands, keepScore t c.2.2.1 = true → (pyIndex labels c.2.1).isSome) :
    kpLoop labels edges t w h cands =
      .ok ((cands.filter fun c => keepScore t c.2.2.1).map (emitKPDetection labels w h),
           (cands.filter fun c => keepScore t c.2.2.1).map (emitKeypoint labels w h),
           match edges with
           | some es => (cands.filter fun c => keepScore t c.2.2.1).map fun c =>
               emitPolyline es (kpPoints w h c.2.2.2) c.2.2.1
           | none => []) := by
  induction cands with
  | nil => cases edges <;> rfl
  | cons c rest ih =>
    have ihr := ih fun c2 h2 => hvalid c2 (List.mem_cons_of_mem _ h2)
    simp only [kpLoop]
    by_cases hk : keepScore t c.2.2.1 = true
    · rw [if_pos hk]
      obtain ⟨name, hname⟩ := Option.isSome_iff_exists.mp (hvalid c (by simp) hk)
      rw [hname, ihr]
      cases edges with
      | none =>
        simp [List.filter_cons, hk, emitKPDetection, emitKeypoint, hname]
      | some es =>
        simp [List.filter_cons, hk, emitKPDetection, emitKeypoint, emitPolyline, hname]
    · rw [if_neg hk, ihr]
      cases edges with
      | none => simp [List.filter_cons, hk]
      | some es => simp [List.filter_cons, hk]

theorem keypointParse_eq_of_valid (labels : List String) (edges : Option (List (List ℕ)))
    (t : Option ℚ) (w h : ℚ) (o : KPImageOutput)
    (hvalid : ∀ c ∈ kpZip o, keepScore t c.2.2.1 = true → (pyIndex labels c.2.1).isSome) :
    keypointParse labels edges t (w, h) o = .ok (perImageComposite labels edges t w h o) := by
  simp only [keypointParse, kpLoop_eq_of_valid labels edges t w h (kpZip o) hvalid]
  cases edges with
  | none => rfl
  | some es => rfl

theorem softmax_sum_pos (row : List ℝ) (h : row ≠ []) : 0 < (row.map Real.exp).sum := by
  apply List.sum_pos
  · intro x hx
    obtain ⟨v, hv, rfl⟩ := List.mem_map.mp hx
    exact Real.exp_pos v
  · simpa using h

theorem softmax_fn_strictMono (row : List ℝ) (h : row ≠ []) :
    StrictMono (fun v : ℝ => Real.exp v / (row.map Real.exp).sum) := by
  intro a b hab
  exact div_lt_div_of_pos_right (Real.exp_lt_exp.mpr hab) (softmax_sum_pos row h)

theorem npMaxD_softmax_eq (row : List ℝ) (hne : row ≠ []) :
    npMaxD (softmaxRow row) 0 = (softmaxRow row).getD (npArgmax row) 0 := by
  have hmono := softmax_fn_strictMono row hne
  show npMaxD (row.map fun v => Real.exp v / (row.map Real.exp).sum) 0 =
    (row.map fun v => Real.exp v / (row.map Real.exp).sum).getD (npArgmax row) 0
  rw [npMaxD_eq_getD_npArgmax _ (by simpa using hne) 0, npArgmax_map _ hmono row]

theorem classifier_row_eq (labels : List String) (t : Option ℝ) (row : List ℝ)
    (hlen : row.length = labels.length) (h0 : 0 < labels.length) :
    (if keepScoreR t (npMaxD (softmaxRow row) 0) then
       match pyIndex labels ((npArgmax row : ℕ) : ℤ) with
       | none => (Except.error "IndexError: list index out of range" :
           Except String (Option Classification))
       | some name => Except.ok (some { label := name, confidence := npMaxD (softmaxRow row) 0 })
     else Except.ok none) = Except.ok (claimClassification labels t row) := by
  have hne : row ≠ [] := by
    intro he
    rw [he] at hlen
    simp at hlen
    omega
  have hp : npArgmax row < labels.length := hlen ▸ npArgmax_lt_length row hne
  have hpi : pyIndex labels ((npArgmax row : ℕ) : ℤ) =
      some (labels.getD (npArgmax row) "") := pyIndex_nat_eq labels _ hp ""
  have hscore := npMaxD_softmax_eq row hne
  cases t with
  | none =>
    simp only [keepScoreR, if_true, hpi, claimClassification, hscore]
  | some th =>
    simp only [keepScoreR, claimClassification, hscore]
    by_cases hlt : (softmaxRow row).getD (npArgmax row) 0 < th
    · rw [if_neg (by simpa using not_le.mpr hlt), if_pos hlt]
    · rw [if_pos (by simpa using not_lt.mp hlt), if_neg hlt, hpi]

theorem classifier_row_error_iff (labels : List String) (t : Option ℝ) (row : List ℝ) :
    (∃ e, (if keepScoreR t (npMaxD (softmaxRow row) 0) then
       match pyIndex labels ((npArgmax row : ℕ) : ℤ) with
       | none => (Except.error "IndexError: list index out of range" :
           Except String (Option Classification))
       | some name => Except.ok (some { label := name, confidence := npMaxD (softmaxRow row) 0 })
     else Except.ok none) = .error e) ↔
      (keepScoreR t (npMaxD (softmaxRow row) 0) = true ∧ labels.length ≤ npArgmax row) := by
  by_cases hk : keepScoreR t (npMaxD (softmaxRow row) 0) = true
  · rw [if_pos hk]
    cases hpi : pyIndex labels ((npArgmax row : ℕ) : ℤ) with
    | none =>
      refine iff_of_true ⟨_, rfl⟩ ⟨hk, ?_⟩
      have := (pyIndex_eq_none_iff labels _).mp hpi
      omega
    | some name =>
      refine iff_of_false ?_ ?_
      · rintro ⟨e, he⟩
        cases he
      · rintro ⟨-, h2⟩
        rw [(pyIndex_eq_none_iff labels _).mpr (by omega)] at hpi
        cases hpi
  · rw [if_neg hk]
    refine iff_of_false ?_ ?_
    · rintro ⟨e, he⟩
      cases he
    · rintro ⟨h1, -⟩
      exact hk h1

theorem classifierCall_error_iff (labels : List String) (t : Option ℝ)
    (logits : List (List ℝ)) :
    (∃ e, classifierCall labels t logits = .error e) ↔
      ∃ row ∈ logits, keepScoreR t (npMaxD (softmaxRow row) 0) = true ∧
        labels.length ≤ npArgmax row := by
  rw [show classifierCall labels t logits = mapExcept _ logits from rfl, mapExcept_error_iff]
  constructor
  · rintro ⟨row, hrow, he⟩
    exact ⟨row, hrow, (classifier_row_error_iff labels t row).mp he⟩
  · rintro ⟨row, hrow, hc⟩
    exact ⟨row, hrow, (classifier_row_error_iff labels t row).mpr hc⟩

theorem minResize_eq_self_of_ge (minh minw : ℕ) (img : PILImage)
    (h1 : minh ≤ img.height) (h2 : minw ≤ img.width) : minResize minh minw img = img := by
  simp only [minResize]
  rw [if_pos ⟨h1, h2⟩]

theorem minResize_dims_ge (minh minw : ℕ) (img : PILImage)
    (hh : 0 < img.height) (hw : 0 < img.width) :
    minh ≤ (minResize minh minw img).height ∧ minw ≤ (minResize minh minw img).width := by
  simp only [minResize]
  split_ifs with hcase
  · exact hcase
  · have hhq : (0 : ℚ) < (img.height : ℚ) := by exact_mod_cast hh
    have hwq : (0 : ℚ) < (img.width : ℚ) := by exact_mod_cast hw
    have hah : (minh : ℚ) ≤ resizeAlpha minh minw img * img.height := by
      have hd : ((minh : ℚ) / (img.height : ℚ)) ≤ resizeAlpha minh minw img :=
        le_max_left _ _
      calc (minh : ℚ) = ((minh : ℚ) / (img.height : ℚ)) * (img.height : ℚ) := by
            field_simp
        _ ≤ resizeAlpha minh minw img * img.height :=
            mul_le_mul_of_nonneg_right hd hhq.le
    have haw : (minw : ℚ) ≤ resizeAlpha minh minw img * img.width := by
      have hd : ((minw : ℚ) / (img.width : ℚ)) ≤ resizeAlpha minh minw img :=
        le_max_right _ _
      calc (minw : ℚ) = ((minw : ℚ) / (img.width : ℚ)) * (img.width : ℚ) := by
            field_simp
        _ ≤ resizeAlpha minh minw img * img.width :=
            mul_le_mul_of_nonneg_right hd hwq.le
    have hrh : ((minh : ℤ)) ≤ pyRound (resizeAlpha minh minw img * img.height) :=
      pyRound_ge (by exact_mod_cast hah)
    have hrw : ((minw : ℤ)) ≤ pyRound (resizeAlpha minh minw img * img.width) :=
      pyRound_ge (by exact_mod_cast haw)
    simp only [F_resize]
    constructor
    · omega
    · omega

theorem argmaxAxis1_spec (img : List (List (List ℚ))) (H W : ℕ)
    (hM : 0 < img.length)
    (hch : ∀ ch ∈ img, ch.length = H ∧ ∀ row ∈ ch, row.length = W) :
    (argmaxAxis1 img).length = H ∧
    (∀ row ∈ argmaxAxis1 img, row.length = W) ∧
    ∀ y x, y < H → x < W →
      ((argmaxAxis1 img).getD y []).getD x 0 =
        npArgmax (img.map fun ch => (ch.getD y []).getD x 0) := by
  cases img with
  | nil => simp at hM
  | cons ch0 chs =>
    have hch0 := hch ch0 (by simp)
    refine ⟨?_, ?_, ?_⟩
    · simp [argmaxAxis1, hch0.1]
    · intro row hrow
      simp only [argmaxAxis1, List.mem_map, List.mem_range] at hrow
      obtain ⟨y, hy, rfl⟩ := hrow
      have hmem : ch0.getD y [] ∈ ch0 := getD_mem ch0 y hy []
      simp only [List.length_map, List.length_range]
      exact hch0.2 _ hmem
    · intro y x hy hx
      have hy0 : y < ch0.length := by rw [hch0.1]; exact hy
      have hmem : ch0.getD y [] ∈ ch0 := getD_mem ch0 y hy0 []
      have hx0 : x < (ch0.getD y []).length := by rw [hch0.2 _ hmem]; exact hx
      show ((argmaxAxis1 (ch0 :: chs)).getD y []).getD x 0 = _
      simp only [argmaxAxis1]
      rw [getD_range_map _ _ y hy0, getD_range_map _ _ x hx0]

/-! ### Claim theorems -/

/-- C9 counterexample: the claim says that with width = height = 1 the
normalization leaves the inputs (x1, y1, x2, y2) = (1, 0, 1, 1)
unchanged; in fact the code converts corners to (x, y, w, h) and returns
(1, 0, 0, 1). -/
theorem normalize_box_unit_frame_changes_inputs :
    normalize_box 1 0 1 1 1 1 = [1, 0, 0, 1] ∧
    normalize_box 1 0 1 1 1 1 ≠ [1, 0, 1, 1] := by
  constructor
  · norm_num [normalize_box]
  · norm_num [normalize_box]

/-- C9 amended: with width = height = 1 the divisions are identities, so
normalize_box performs a pure corner-to-extent conversion
(x1, y1, x2 - x1, y2 - y1) with no scaling; and for every box fully
inside the frame the normalized output satisfies 0 ≤ x, 0 ≤ y,
x + w ≤ 1 and y + h ≤ 1. -/
theorem normalize_box_unit_frame_amended (x1 y1 x2 y2 W H : ℚ)
    (hx1 : 0 ≤ x1) (hx12 : x1 ≤ x2) (hx2 : x2 ≤ W)
    (hy1 : 0 ≤ y1) (hy12 : y1 ≤ y2) (hy2 : y2 ≤ H)
    (hW : 0 < W) (hH : 0 < H) :
    normalize_box x1 y1 x2 y2 1 1 = [x1, y1, x2 - x1, y2 - y1] ∧
    0 ≤ (normalize_box x1 y1 x2 y2 W H).getD 0 0 ∧
    0 ≤ (normalize_box x1 y1 x2 y2 W H).getD 1 0 ∧
    (normalize_box x1 y1 x2 y2 W H).getD 0 0 + (normalize_box x1 y1 x2 y2 W H).getD 2 0 ≤ 1 ∧
    (normalize_box x1 y1 x2 y2 W H).getD 1 0 + (normalize_box x1 y1 x2 y2 W H).getD 3 0 ≤ 1 := by
  refine ⟨by simp [normalize_box], ?_, ?_, ?_, ?_⟩ <;>
    simp only [normalize_box, List.getD_cons_zero, List.getD_cons_succ]
  · exact div_nonneg hx1 hW.le
  · exact div_nonneg hy1 hH.le
  · rw [div_add_div_same, show x1 + (x2 - x1) = x2 by ring]
    exact (div_le_one hW).mpr hx2
  · rw [div_add_div_same, show y1 + (y2 - y1) = y2 by ring]
    exact (div_le_one hH).mpr hy2

/-- C9 amended witness at the concrete box (0, 0, 1, 2) in a 2 x 4
frame. -/
theorem normalize_box_unit_frame_amended_witness :
    normalize_box 0 0 1 2 1 1 = [0, 0, 1 - 0, 2 - 0] ∧
    0 ≤ (normalize_box 0 0 1 2 2 4).getD 0 0 ∧
    0 ≤ (normalize_box 0 0 1 2 2 4).getD 1 0 ∧
    (normalize_box 0 0 1 2 2 4).getD 0 0 + (normalize_box 0 0 1 2 2 4).getD 2 0 ≤ 1 ∧
    (normalize_box 0 0 1 2 2 4).getD 1 0 + (normalize_box 0 0 1 2 2 4).getD 3 0 ≤ 1 :=
  normalize_box_unit_frame_amended 0 0 1 2 2 4 (by norm_num) (by norm_num) (by norm_num)
    (by norm_num) (by norm_num) (by norm_num) (by norm_num) (by norm_num)

/-- C4: the detector processor emits exactly the candidates whose score
passes the confidence filter (all of them when no threshold is set), in
input order with no sorting, each with the normalized bounding box
(x1/width, y1/height, (x2-x1)/width, (y2-y1)/height); in particular box
(10, 20, 30, 60) in a 100 x 200 frame normalizes to
(0.1, 0.1, 0.2, 0.2). -/
theorem detector_filter_order_normalize (labels : List String) (t : Option ℚ)
    (o : DetImageOutput) (w h : ℚ)
    (hvalid : ∀ c ∈ detZip o, keepScore t c.2.2 = true → (pyIndex labels c.2.1).isSome) :
    detectorParse labels t o (w, h) =
      .ok (((detZip o).filter fun c => keepScore t c.2.2).map (emitDetection labels w h)) ∧
    normalize_box 10 20 30 60 100 200 = [1/10, 1/10, 1/5, 1/5] := by
  refine ⟨detectorLoop_eq_of_valid labels t w h (detZip o) hvalid, ?_⟩
  norm_num [normalize_box]

/-- C4 witness at a concrete one-candidate image output. -/
theorem detector_filter_order_normalize_witness :
    detectorParse ["a"] none { boxes := [(10, 20, 30, 60)], labels := [0], scores := [1] }
        (100, 200) =
      .ok (((detZip { boxes := [(10, 20, 30, 60)], labels := [0], scores := [1] }).filter
        fun c => keepScore none c.2.2).map (emitDetection ["a"] 100 200)) ∧
    normalize_box 10 20 30 60 100 200 = [1/10, 1/10, 1/5, 1/5] :=
  detector_filter_order_normalize ["a"] none
    { boxes := [(10, 20, 30, 60)], labels := [0], scores := [1] } 100 200 (by decide)

/-- C2 counterexample: the claim says every class index outside
[0, len(class_labels)) is a fatal error, including negative indices; in
fact the detector silently emits the label class_labels[-1] = "b" for the
predicted index -1 via Python negative indexing. -/
theorem negative_class_index_silently_accepted :
    detectorParse ["a", "b"] none
        { boxes := [(0, 0, 1, 1)], labels := [-1], scores := [1] } (1, 1) =
      .ok [{ label := "b", bounding_box := [0, 0, 1, 1], confidence := 1, mask := none }] := by
  simp [detectorParse, detectorLoop, detZip, keepScore, pyIndex, normalize_box]

/-- C2 amended: class-label indexing fails exactly for indices outside
the Python range [-len, len); an index in [-len, -1] is silently accepted
and resolves to the label at len + index; the detector parse fails
exactly when some candidate passing the confidence filter has such an
out-of-range index (below-threshold candidates are skipped before the
lookup); and the classifier, whose argmax index is never negative, fails
exactly when some kept row has argmax index at or beyond
len(class_labels). -/
theorem class_index_bounds_amended :
    (∀ (labels : List String) (i : ℤ),
      pyIndex labels i = none ↔ (i < -(labels.length : ℤ) ∨ (labels.length : ℤ) ≤ i)) ∧
    (∀ (labels : List String) (i : ℤ), -(labels.length : ℤ) ≤ i → i < 0 →
      pyIndex labels i = labels.get? ((labels.length : ℤ) + i).toNat) ∧
    (∀ (labels : List String) (t : Option ℚ) (w h : ℚ)
        (cands : List ((ℚ × ℚ × ℚ × ℚ) × ℤ × ℚ)),
      (∃ e, detectorLoop labels t w h cands = .error e) ↔
        ∃ c ∈ cands, keepScore t c.2.2 = true ∧ pyIndex labels c.2.1 = none) ∧
    (∀ (labels : List String) (t : Option ℝ) (logits : List (List ℝ)),
      (∀ row ∈ logits, row ≠ ([] : List ℝ)) →
      ((∃ e, classifierCall labels t logits = .error e) ↔
        ∃ row ∈ logits, keepScoreR t (npMaxD (softmaxRow row) 0) = true ∧
          labels.length ≤ npArgmax row)) :=
  ⟨fun labels i => pyIndex_eq_none_iff labels i,
   fun labels i h1 h2 => pyIndex_neg_eq labels i h1 h2,
   fun labels t w h cands => detectorLoop_error_iff labels t w h cands,
   fun labels t logits _ => classifierCall_error_iff labels t logits⟩

/-- C2 amended witness at concrete inputs: the out-of-range index -3 on a
two-label list, and a classifier batch with one kept two-logit row. -/
theorem class_index_bounds_amended_witness :
    (pyIndex ["a", "b"] (-3) = none ↔
      ((-3 : ℤ) < -((["a", "b"] : List String).length : ℤ) ∨
        ((["a", "b"] : List String).length : ℤ) ≤ -3)) ∧
    ((∃ e, classifierCall ["a"] none [[0, 0]] = .error e) ↔
      ∃ row ∈ ([[0, 0]] : List (List ℝ)),
        keepScoreR none (npMaxD (softmaxRow row) 0) = true ∧
          (["a"] : List String).length ≤ npArgmax row) :=
  ⟨class_index_bounds_amended.1 ["a", "b"] (-3),
   class_index_bounds_amended.2.2.2 ["a"] none [[0, 0]]
     (by intro row hrow; simp only [List.mem_singleton] at hrow; subst hrow; simp)⟩

/-- C5: the min-size resize transform returns the input image itself when
both dimensions already meet the minimums; otherwise it resizes to
(round(alpha * h), round(alpha * w)) with
alpha = max(minh / h, minw / w), and then both output dimensions are at
or above their minimums. -/
theorem min_resize_spec (minh minw : ℕ) (img : PILImage)
    (hh : 0 < img.height) (hw : 0 < img.width) :
    (minh ≤ img.height ∧ minw ≤ img.width → minResize minh minw img = img) ∧
    (¬(minh ≤ img.height ∧ minw ≤ img.width) →
      minResize minh minw img =
        F_resize img (pyRound (resizeAlpha minh minw img * img.height),
                      pyRound (resizeAlpha minh minw img * img.width)) ∧
      minh ≤ (minResize minh minw img).height ∧ minw ≤ (minResize minh minw img).width) := by
  refine ⟨fun hc => minResize_eq_self_of_ge minh minw img hc.1 hc.2, fun hc => ?_⟩
  refine ⟨?_, (minResize_dims_ge minh minw img hh hw).1,
    (minResize_dims_ge minh minw img hh hw).2⟩
  simp only [minResize]
  rw [if_neg hc]

/-- C5 witness at a concrete 2 x 3 image with minimums (4, 4). -/
theorem min_resize_spec_witness :
    (4 ≤ (PILImage.mk 2 3 7).height ∧ 4 ≤ (PILImage.mk 2 3 7).width →
      minResize 4 4 (PILImage.mk 2 3 7) = PILImage.mk 2 3 7) ∧
    (¬(4 ≤ (PILImage.mk 2 3 7).height ∧ 4 ≤ (PILImage.mk 2 3 7).width) →
      minResize 4 4 (PILImage.mk 2 3 7) =
        F_resize (PILImage.mk 2 3 7)
          (pyRound (resizeAlpha 4 4 (PILImage.mk 2 3 7) * (PILImage.mk 2 3 7).height),
           pyRound (resizeAlpha 4 4 (PILImage.mk 2 3 7) * (PILImage.mk 2 3 7).width)) ∧
      4 ≤ (minResize 4 4 (PILImage.mk 2 3 7)).height ∧
      4 ≤ (minResize 4 4 (PILImage.mk 2 3 7)).width) :=
  min_resize_spec 4 4 (PILImage.mk 2 3 7) (by decide) (by decide)

/-- C10: the min-size resize transform is idempotent, because under exact
arithmetic the first application leaves both dimensions at or above the
minimums, so the second application takes the unchanged-return branch. -/
theorem min_resize_idempotent (minh minw : ℕ) (img : PILImage)
    (hh : 0 < img.height) (hw : 0 < img.width) :
    minResize minh minw (minResize minh minw img) = minResize minh minw img := by
  have h := minResize_dims_ge minh minw img hh hw
  exact minResize_eq_self_of_ge minh minw _ h.1 h.2

/-- C10 witness at a concrete 2 x 3 image with minimums (4, 4). -/
theorem min_resize_idempotent_witness :
    minResize 4 4 (minResize 4 4 (PILImage.mk 2 3 7)) = minResize 4 4 (PILImage.mk 2 3 7) :=
  min_resize_idempotent 4 4 (PILImage.mk 2 3 7) (by decide) (by decide)

/-- C8: model construction fails with a configuration error before any
inference whenever exactly one of image_mean and image_std is given, or
neither labels source is given. -/
theorem config_errors_at_construction (load : String → List String) (c : TorchModelConfig)
    (h : optListTruthy c.image_mean ≠ optListTruthy c.image_std ∨
         (optStrTruthy c.labels_string = false ∧ optStrTruthy c.labels_path = false)) :
    ∃ e, torchModelInit load c = .error e := by
  rcases h with hms | ⟨hs, hp⟩
  · cases hlab : getClassLabels load c with
    | error e => exact ⟨e, by simp [torchModelInit, hlab]⟩
    | ok labels =>
      have hbt : ∃ e, buildTransforms c = .error e := by
        cases hm : optListTruthy c.image_mean <;> cases hst : optListTruthy c.image_std
        · rw [hm, hst] at hms
          exact absurd rfl hms
        · exact ⟨"Both image_mean and image_std must be provided",
            by simp [buildTransforms, hm, hst]⟩
        · exact ⟨"Both image_mean and image_std must be provided",
            by simp [buildTransforms, hm, hst]⟩
        · rw [hm, hst] at hms
          exact absurd rfl hms
      obtain ⟨e, he⟩ := hbt
      exact ⟨e, by simp [torchModelInit, hlab, he]⟩
  · have hg : getClassLabels load c =
        .error "Either labels_string or labels_path must be specified" := by
      simp only [getClassLabels]
      rw [if_neg (by simp [hs]), if_pos (by simp [hp])]
    exact ⟨"Either labels_string or labels_path must be specified",
      by simp [torchModelInit, hg]⟩

/-- C8 witness at a concrete configuration providing image_mean but not
image_std. -/
theorem config_errors_at_construction_witness :
    ∃ e, torchModelInit (fun _ => [])
      { labels_string := some "a", labels_path := none, image_min_size := none,
        image_min_dim := none, image_size := none, image_dim := none,
        image_mean := some [1/2], image_std := none } = .error e :=
  config_errors_at_construction (fun _ => [])
    { labels_string := some "a", labels_path := none, image_min_size := none,
      image_min_dim := none, image_size := none, image_dim := none,
      image_mean := some [1/2], image_std := none } (Or.inl (by decide))

/-- C1 counterexample: the claim says the keypoint detector processor
returns a single composite mapping aggregating the labels of the whole
batch; in fact, on a two-image batch it returns a list of two per-image
composite mappings, each holding only the candidates of its own image. -/
theorem keypoint_batch_not_single_composite :
    keypointCall ["a"] none none (1, 1) [kpImgA, kpImgB] =
      .ok [{ detections := [{ label := "a", bounding_box := [0, 0, 1, 1],
                              confidence := 1, mask := none }],
             keypoints := [{ label := "a", points := [(0, 0)], confidence := 1 }],
             polylines := none },
           { detections := [{ label := "a", bounding_box := [0, 0, 2, 2],
                              confidence := 1, mask := none }],
             keypoints := [{ label := "a", points := [(1, 1)], confidence := 1 }],
             polylines := none }] := by
  simp [keypointCall, mapExcept, keypointParse, kpLoop, kpZip, kpImgA, kpImgB,
    keepScore, pyIndex, normalize_box, kpPoints]

/-- C1 amended: the keypoint detector processor returns one composite
mapping per input image; each mapping has keys detections and keypoints,
and polylines exactly when an edge list is configured, and each key holds
the collection of labels built from the confidence-filtered candidates of
that image alone. -/
theorem keypoint_per_image_composite (labels : List String)
    (edges : Option (List (List ℕ))) (t : Option ℚ) (w h : ℚ)
    (batch : List KPImageOutput)
    (hvalid : ∀ o ∈ batch, ∀ c ∈ kpZip o,
      keepScore t c.2.2.1 = true → (pyIndex labels c.2.1).isSome) :
    keypointCall labels edges t (w, h) batch =
      .ok (batch.map (perImageComposite labels edges t w h)) ∧
    (batch.map (perImageComposite labels edges t w h)).length = batch.length ∧
    ∀ o ∈ batch,
      ((perImageComposite labels edges t w h o).polylines.isSome ↔ edges.isSome) := by
  refine ⟨mapExcept_ok _ _ batch
    (fun o ho => keypointParse_eq_of_valid labels edges t w h o (hvalid o ho)),
    by simp, ?_⟩
  intro o ho
  simp only [perImageComposite]
  cases edges <;> simp

/-- C1 amended witness at a concrete one-image batch with an edge list
configured. -/
theorem keypoint_per_image_composite_witness :
    keypointCall ["a"] (some [[0, 0]]) none (1, 1) [kpImgA] =
      .ok ([kpImgA].map (perImageComposite ["a"] (some [[0, 0]]) none 1 1)) ∧
    ([kpImgA].map (perImageComposite ["a"] (some [[0, 0]]) none 1 1)).length =
      [kpImgA].length ∧
    ∀ o ∈ [kpImgA],
      ((perImageComposite ["a"] (some [[0, 0]]) none 1 1 o).polylines.isSome ↔
        (some [[0, 0]] : Option (List (List ℕ))).isSome) :=
  keypoint_per_image_composite ["a"] (some [[0, 0]]) none 1 1 [kpImgA] (by decide)

/-- C3: on an [N, M] logits matrix the classifier returns exactly N
entries; entry i is None when a configured confidence threshold exceeds
the softmax probability of the predicted class, and otherwise a
classification labelled by class_labels at the argmax of the raw logits
of row i, with confidence equal to the softmax probability
exp(logit)/sum(exp(logit)) of that predicted class. -/
theorem classifier_softmax_argmax (labels : List String) (t : Option ℝ)
    (logits : List (List ℝ))
    (hM : ∀ row ∈ logits, row.length = labels.length) (h0 : 0 < labels.length) :
    classifierCall labels t logits = .ok (logits.map (claimClassification labels t)) ∧
    (logits.map (claimClassification labels t)).length = logits.length := by
  refine ⟨mapExcept_ok _ _ logits (fun row hrow => ?_), by simp⟩
  exact classifier_row_eq labels t row (hM row hrow) h0

/-- C3 witness at the concrete 1 x 2 logits matrix [[0, 0]] with two
labels. -/
theorem classifier_softmax_argmax_witness :
    classifierCall ["a", "b"] none [[0, 0]] =
      .ok (([[0, 0]] : List (List ℝ)).map (claimClassification ["a", "b"] none)) ∧
    (([[0, 0]] : List (List ℝ)).map (claimClassification ["a", "b"] none)).length =
      ([[0, 0]] : List (List ℝ)).length :=
  classifier_softmax_argmax ["a", "b"] none [[0, 0]]
    (by intro row hrow; simp only [List.mem_singleton] at hrow; subst hrow; simp)
    (by norm_num)

/-- C6: each kept instance segmenter candidate carries the boolean mask
obtained by dropping the singleton channel axis of its [1, H, W] soft
mask, cropping to rows round(y1)..round(y2) and columns
round(x1)..round(x2), and binarizing by strict comparison against
mask_thresh, whose default is 0.5; in particular a cropped soft mask
everywhere 0.6 binarizes to all true at the default threshold and to all
false at threshold 0.7. -/
theorem instance_mask_crop_binarize (labels : List String) (t : Option ℚ) (mt : ℚ)
    (o : InstImageOutput) (w h : ℚ)
    (hvalid : ∀ c ∈ instZip o, keepScore t c.2.2.1 = true → (pyIndex labels c.2.1).isSome) :
    instanceParse labels t mt o (w, h) =
      .ok (((instZip o).filter fun c => keepScore t c.2.2.1).map
        (emitInstDetection labels mt w h)) ∧
    defaultMaskThresh = 1/2 ∧
    instanceParse ["a"] none defaultMaskThresh instImg06 (2, 2) =
      .ok [{ label := "a", bounding_box := [0, 0, 1, 1], confidence := 1,
             mask := some [[true, true], [true, true]] }] ∧
    instanceParse ["a"] none (7/10) instImg06 (2, 2) =
      .ok [{ label := "a", bounding_box := [0, 0, 1, 1], confidence := 1,
             mask := some [[false, false], [false, false]] }] := by
  refine ⟨instLoop_eq_of_valid labels t mt w h (instZip o) hvalid, by norm_num [defaultMaskThresh], ?_, ?_⟩
  · simp [instanceParse, instLoop, instZip, instImg06, keepScore, pyIndex, normalize_box,
      binarizeMask, cropSoftMask, npSqueeze0, pySlice, pyRound, defaultMaskThresh]
    norm_num [Int.floor_eq_iff]
  · simp [instanceParse, instLoop, instZip, instImg06, keepScore, pyIndex, normalize_box,
      binarizeMask, cropSoftMask, npSqueeze0, pySlice, pyRound, defaultMaskThresh]
    norm_num [Int.floor_eq_iff]

/-- C6 witness at the concrete uniform-0.6 soft mask input. -/
theorem instance_mask_crop_binarize_witness :
    instanceParse ["a"] none defaultMaskThresh instImg06 (2, 2) =
      .ok (((instZip instImg06).filter fun c => keepScore none c.2.2.1).map
        (emitInstDetection ["a"] defaultMaskThresh 2 2)) ∧
    defaultMaskThresh = 1/2 ∧
    instanceParse ["a"] none defaultMaskThresh instImg06 (2, 2) =
      .ok [{ label := "a", bounding_box := [0, 0, 1, 1], confidence := 1,
             mask := some [[true, true], [true, true]] }] ∧
    instanceParse ["a"] none (7/10) instImg06 (2, 2) =
      .ok [{ label := "a", bounding_box := [0, 0, 1, 1], confidence := 1,
             mask := some [[false, false], [false, false]] }] :=
  instance_mask_crop_binarize ["a"] none defaultMaskThresh instImg06 2 2 (by decide)

/-- C7: on an [N, M, H, W] tensor of per-pixel per-class scores the
semantic segmenter returns exactly N segmentation labels; the mask of
image i is the [H, W] array whose entry at (y, x) is the argmax over the
class axis of the scores at that pixel, with no thresholding and no
confidence; and when M = 2 and the class-1 score exceeds the class-0
score at every pixel, every mask entry is 1. -/
theorem segmenter_argmax_masks (probs : List (List (List (List ℚ)))) (M H W : ℕ)
    (hM : 0 < M)
    (hsh : ∀ img ∈ probs, img.length = M ∧
      ∀ ch ∈ img, ch.length = H ∧ ∀ row ∈ ch, row.length = W) :
    (segmenterCall probs).length = probs.length ∧
    (∀ i, i < probs.length →
      ((segmenterCall probs).getD i { mask := [] }).mask.length = H ∧
      (∀ row ∈ ((segmenterCall probs).getD i { mask := [] }).mask, row.length = W) ∧
      (∀ y x, y < H → x < W →
        (((segmenterCall probs).getD i { mask := [] }).mask.getD y []).getD x 0 =
          npArgmax ((probs.getD i []).map fun ch => (ch.getD y []).getD x 0))) ∧
    (M = 2 →
      (∀ i y x, i < probs.length → y < H → x < W →
        (((probs.getD i []).getD 0 []).getD y []).getD x 0 <
          (((probs.getD i []).getD 1 []).getD y []).getD x 0) →
      ∀ i y x, i < probs.length → y < H → x < W →
        (((segmenterCall probs).getD i { mask := [] }).mask.getD y []).getD x 0 = 1) := by
  have hseg : ∀ i, (segmenterCall probs).getD i { mask := [] } =
      { mask := argmaxAxis1 (probs.getD i []) } := by
    intro i
    show (probs.map fun img => ({ mask := argmaxAxis1 img } : Segmentation)).getD i
      ((fun img => ({ mask := argmaxAxis1 img } : Segmentation)) []) =
      { mask := argmaxAxis1 (probs.getD i []) }
    rw [getD_map (fun img => ({ mask := argmaxAxis1 img } : Segmentation)) probs i []]
  have hspec : ∀ i, i < probs.length →
      (argmaxAxis1 (probs.getD i [])).length = H ∧
      (∀ row ∈ argmaxAxis1 (probs.getD i []), row.length = W) ∧
      ∀ y x, y < H → x < W →
        ((argmaxAxis1 (probs.getD i [])).getD y []).getD x 0 =
          npArgmax ((probs.getD i []).map fun ch => (ch.getD y []).getD x 0) := by
    intro i hi
    have hmem : probs.getD i [] ∈ probs := getD_mem probs i hi []
    have hs := hsh _ hmem
    exact argmaxAxis1_spec (probs.getD i []) H W (by rw [hs.1]; exact hM) hs.2
  refine ⟨by simp [segmenterCall], ?_, ?_⟩
  · intro i hi
    rw [hseg i]
    exact hspec i hi
  · intro hM2 hlt i y x hi hy hx
    rw [hseg i]
    have hmem : probs.getD i [] ∈ probs := getD_mem probs i hi []
    have hs := hsh _ hmem
    have hlen2 : (probs.getD i []).length = 2 := by rw [hs.1, hM2]
    obtain ⟨a, b, hab⟩ := List.length_eq_two.mp hlen2
    have hentry := (hspec i hi).2.2 y x hy hx
    have h01 := hlt i y x hi hy hx
    rw [hab] at h01
    simp only [List.getD_cons_zero, List.getD_cons_succ] at h01
    rw [hentry, hab]
    simp only [List.map_cons, List.map_nil]
    exact npArgmax_pair _ _ h01

/-- C7 witness at the concrete [1, 2, 1, 1] tensor segProbsEx. -/
theorem segmenter_argmax_masks_witness :
    (segmenterCall segProbsEx).length = segProbsEx.length ∧
    (∀ i, i < segProbsEx.length →
      ((segmenterCall segProbsEx).getD i { mask := [] }).mask.length = 1 ∧
      (∀ row ∈ ((segmenterCall segProbsEx).getD i { mask := [] }).mask, row.length = 1) ∧
      (∀ y x, y < 1 → x < 1 →
        (((segmenterCall segProbsEx).getD i { mask := [] }).mask.getD y []).getD x 0 =
          npArgmax ((segProbsEx.getD i []).map fun ch => (ch.getD y []).getD x 0))) ∧
    (2 = 2 →
      (∀ i y x, i < segProbsEx.length → y < 1 → x < 1 →
        (((segProbsEx.getD i []).getD 0 []).getD y []).getD x 0 <
          (((segProbsEx.getD i []).getD 1 []).getD y []).getD x 0) →
      ∀ i y x, i < segProbsEx.length → y < 1 → x < 1 →
        (((segmenterCall segProbsEx).getD i { mask := [] }).mask.getD y []).getD x 0 = 1) :=
  segmenter_argmax_masks segProbsEx 2 1 1 (by norm_num)
    (by
      intro img himg
      simp only [segProbsEx, List.mem_singleton] at himg
      subst himg
      refine ⟨by simp, ?_⟩
      intro ch hch
      rcases List.mem_cons.mp hch with rfl | hch2
      · exact ⟨by simp, by intro row hrow; simp only [List.mem_singleton] at hrow; subst hrow; simp⟩
      · simp only [List.mem_singleton] at hch2
        subst hch2
        exact ⟨by simp, by intro row hrow; simp only [List.mem_singleton] at hrow; subst hrow; simp⟩)

end FOTorch

